import Mathlib

set_option maxRecDepth 100000

/-!
Formal model of the lyftr backend webhook service.

The definitions below are a shallow embedding of the Python sources:
`app/main.py` (HMAC signature verification, payload validation, the webhook
handler), `app/storage.py` (insert_message, fetch_messages, get_stats) and
`app/models.py` (the schema created by init_db).  The SQLite table is
modelled as a list of rows in insertion order; each SQL statement used by
the repository is translated to an executable Lean function over that list.
-/

/-! Byte-level primitives: SHA-256 and HMAC-SHA256, needed because
`verify_signature` in `app/main.py` computes
`hmac.new(secret, body, hashlib.sha256).hexdigest()` and compares it to the
supplied header value.  Machine words are Nat with explicit reduction
modulo 2^32. -/

/-- Truncation to a 32-bit word. -/
def w32 (n : Nat) : Nat := n % 4294967296

/-- Addition modulo 2^32. -/
def add32 (a b : Nat) : Nat := (a + b) % 4294967296

/-- Rotate a 32-bit word right by k positions. -/
def rotr32 (x k : Nat) : Nat := w32 ((x >>> k) ||| (x <<< (32 - k)))

/-- Bitwise complement of a 32-bit word. -/
def not32 (x : Nat) : Nat := Nat.xor x 4294967295

/-- The 64 round constants of SHA-256, in decimal. -/
def sha256K : List Nat :=
  [1116352408, 1899447441, 3049323471, 3921009573, 961987163,
   1508970993, 2453635748, 2870763221, 3624381080, 310598401,
   607225278, 1426881987, 1925078388, 2162078206, 2614888103,
   3248222580, 3835390401, 4022224774, 264347078, 604807628,
   770255983, 1249150122, 1555081692, 1996064986, 2554220882,
   2821834349, 2952996808, 3210313671, 3336571891, 3584528711,
   113926993, 338241895, 666307205, 773529912, 1294757372,
   1396182291, 1695183700, 1986661051, 2177026350, 2456956037,
   2730485921, 2820302411, 3259730800, 3345764771, 3516065817,
   3600352804, 4094571909, 275423344, 430227734, 506948616,
   659060556, 883997877, 958139571, 1322822218, 1537002063,
   1747873779, 1955562222, 2024104815, 2227730452, 2361852424,
   2428436474, 2756734187, 3204031479, 3329325298]

/-- The eight 32-bit words of a SHA-256 internal state. -/
structure H8 where
  a : Nat
  b : Nat
  c : Nat
  d : Nat
  e : Nat
  f : Nat
  g : Nat
  h : Nat

/-- Initial chaining values of SHA-256, in decimal. -/
def sha256Init : H8 :=
  ⟨1779033703, 3144134277, 1013904242, 2773480762,
   1359893119, 2600822924, 528734635, 1541459225⟩

/-- Big-endian 8-byte encoding of the bit length field. -/
def be64 (n : Nat) : List Nat :=
  [(n >>> 56) % 256, (n >>> 48) % 256, (n >>> 40) % 256, (n >>> 32) % 256,
   (n >>> 24) % 256, (n >>> 16) % 256, (n >>> 8) % 256, n % 256]

/-- SHA-256 message padding: append 0x80, zero bytes up to 56 mod 64, then the
64-bit big-endian bit length. -/
def sha256Pad (msg : List Nat) : List Nat :=
  let len := msg.length
  let zeros := (64 - ((len + 9) % 64)) % 64
  msg ++ [0x80] ++ List.replicate zeros 0 ++ be64 (len * 8)

/-- Fuel-indexed splitting of a byte list into 64-byte blocks (structural
recursion so that the kernel can evaluate it). -/
def chunksAux : Nat → List Nat → List (List Nat)
  | 0, _ => []
  | _, [] => []
  | fuel + 1, l => l.take 64 :: chunksAux fuel (l.drop 64)

/-- Split a byte list into 64-byte blocks. -/
def chunk64 (l : List Nat) : List (List Nat) := chunksAux l.length l

/-- Big-endian conversion of bytes to 32-bit words. -/
def bytesToWords : List Nat → List Nat
  | b0 :: b1 :: b2 :: b3 :: rest => (((b0 * 256 + b1) * 256 + b2) * 256 + b3) :: bytesToWords rest
  | _ => []

def smallSigma0 (x : Nat) : Nat := Nat.xor (Nat.xor (rotr32 x 7) (rotr32 x 18)) (x >>> 3)

def smallSigma1 (x : Nat) : Nat := Nat.xor (Nat.xor (rotr32 x 17) (rotr32 x 19)) (x >>> 10)

def bigSigma0 (x : Nat) : Nat := Nat.xor (Nat.xor (rotr32 x 2) (rotr32 x 13)) (rotr32 x 22)

def bigSigma1 (x : Nat) : Nat := Nat.xor (Nat.xor (rotr32 x 6) (rotr32 x 11)) (rotr32 x 25)

/-- Extend the 16-word block schedule by n further words. -/
def extendSchedule (ws : List Nat) : Nat → List Nat
  | 0 => ws
  | n + 1 =>
    let i := ws.length
    let w := add32 (add32 (ws.getD (i - 16) 0) (smallSigma0 (ws.getD (i - 15) 0)))
                   (add32 (ws.getD (i - 7) 0) (smallSigma1 (ws.getD (i - 2) 0)))
    extendSchedule (ws ++ [w]) n

def chGate (e f g : Nat) : Nat := Nat.xor (Nat.land e f) (Nat.land (not32 e) g)

def majGate (a b c : Nat) : Nat :=
  Nat.xor (Nat.xor (Nat.land a b) (Nat.land a c)) (Nat.land b c)

/-- One SHA-256 compression round. -/
def sha256Round (st : H8) (kw : Nat × Nat) : H8 :=
  let t1 := add32 (add32 st.h (bigSigma1 st.e)) (add32 (chGate st.e st.f st.g) (add32 kw.1 kw.2))
  let t2 := add32 (bigSigma0 st.a) (majGate st.a st.b st.c)
  ⟨add32 t1 t2, st.a, st.b, st.c, add32 st.d t1, st.e, st.f, st.g⟩

/-- Process one 64-byte block. -/
def sha256Block (st : H8) (block : List Nat) : H8 :=
  let ws := extendSchedule (bytesToWords block) 48
  let r := (sha256K.zip ws).foldl sha256Round st
  ⟨add32 st.a r.a, add32 st.b r.b, add32 st.c r.c, add32 st.d r.d,
   add32 st.e r.e, add32 st.f r.f, add32 st.g r.g, add32 st.h r.h⟩

/-- The four big-endian bytes of a 32-bit word. -/
def wordToBytes (w : Nat) : List Nat :=
  [(w >>> 24) % 256, (w >>> 16) % 256, (w >>> 8) % 256, w % 256]

/-- SHA-256 digest of a byte list, as 32 bytes. -/
def sha256Bytes (msg : List Nat) : List Nat :=
  let st := (chunk64 (sha256Pad msg)).foldl sha256Block sha256Init
  wordToBytes st.a ++ wordToBytes st.b ++ wordToBytes st.c ++ wordToBytes st.d ++
  wordToBytes st.e ++ wordToBytes st.f ++ wordToBytes st.g ++ wordToBytes st.h

/-- Lowercase hexadecimal digit, as produced by Python hexdigest. -/
def hexDigit (n : Nat) : Char := "0123456789abcdef".toList.getD n 'x'

/-- Two lowercase hex characters for one byte. -/
def byteToHex (b : Nat) : List Char := [hexDigit (b / 16), hexDigit (b % 16)]

/-- Lowercase hex character list of a byte list. -/
def bytesToHexChars (bs : List Nat) : List Char := (bs.map byteToHex).flatten

/-- Lowercase hex string of a byte list (Python hexdigest). -/
def bytesToHex (bs : List Nat) : String := (bytesToHexChars bs).asString

/-- UTF-8 encoding of one character. -/
def utf8EncodeChar (c : Char) : List Nat :=
  let n := c.toNat
  if n < 128 then [n]
  else if n < 2048 then [192 ||| (n >>> 6), 128 ||| (n &&& 63)]
  else if n < 65536 then [224 ||| (n >>> 12), 128 ||| ((n >>> 6) &&& 63), 128 ||| (n &&& 63)]
  else [240 ||| (n >>> 18), 128 ||| ((n >>> 12) &&& 63), 128 ||| ((n >>> 6) &&& 63), 128 ||| (n &&& 63)]

/-- UTF-8 bytes of a string, modelling Python str.encode of utf-8. -/
def strBytes (s : String) : List Nat := (s.toList.map utf8EncodeChar).flatten

/-- HMAC-SHA256 per RFC 2104 with a 64-byte block size, hex-encoded lowercase,
modelling hmac.new(key, msg, hashlib.sha256).hexdigest(). -/
def hmacSha256Hex (key msg : List Nat) : String :=
  let key := if key.length > 64 then sha256Bytes key else key
  let key := key ++ List.replicate (64 - key.length) 0
  let inner := sha256Bytes ((key.map fun b => Nat.xor b 0x36) ++ msg)
  let outer := sha256Bytes ((key.map fun b => Nat.xor b 0x5c) ++ inner)
  bytesToHex outer

/-- Membership in the lowercase hex alphabet 0-9a-f. -/
def isHexChar (c : Char) : Bool :=
  (48 ≤ c.toNat && c.toNat ≤ 57) || (97 ≤ c.toNat && c.toNat ≤ 102)

/-!
String utilities.  SQLite compares TEXT with the BINARY collation, i.e.
bytewise over the UTF-8 encoding; since UTF-8 preserves codepoint order this
equals lexicographic comparison of the character lists.  The functions are
written over character lists by structural recursion so that the kernel can
evaluate them on concrete inputs.
-/

/-- Strict lexicographic order on character lists (SQLite BINARY collation). -/
def charListLt : List Char → List Char → Bool
  | _, [] => false
  | [], _ :: _ => true
  | a :: as, b :: bs => a.toNat < b.toNat || (decide (a = b) && charListLt as bs)

/-- Strict order on strings under the BINARY collation. -/
def strLt (a b : String) : Bool := charListLt a.toList b.toList

/-- Reflexive order on strings under the BINARY collation. -/
def strLe (a b : String) : Bool := strLt a b || decide (a = b)

/-- Test for a literal suffix, modelling Python str.endswith. -/
def strEndsWith (s suffix : String) : Bool := suffix.toList.isSuffixOf s.toList

/-- Test for a literal prefix, modelling Python str.startswith. -/
def strStartsWith (s pre : String) : Bool := pre.toList.isPrefixOf s.toList

/-- ASCII lower casing of one character, as applied by the SQLite LIKE
operator (only A-Z fold by default). -/
def lowerAscii (c : Char) : Char :=
  if 65 ≤ c.toNat && c.toNat ≤ 90 then Char.ofNat (c.toNat + 32) else c

/-- Fuel-indexed SQL LIKE matching over already case-folded character lists.
The percent wildcard matches any sequence, the underscore wildcard matches
exactly one character, every other pattern character matches itself. -/
def likeAux : Nat → List Char → List Char → Bool
  | 0, _, _ => false
  | _ + 1, [], s => s.isEmpty
  | fuel + 1, p :: ps, s =>
    if p = '%' then
      likeAux fuel ps s ||
        (match s with
         | [] => false
         | _ :: cs => likeAux fuel (p :: ps) cs)
    else
      match s with
      | [] => false
      | c :: cs => (p = '_' || decide (p = c)) && likeAux fuel ps cs

/-- SQL LIKE matching of a pattern against a string, with the default SQLite
case folding of ASCII letters. -/
def sqlLike (s pattern : String) : Bool :=
  let sl := s.toList.map lowerAscii
  let pl := pattern.toList.map lowerAscii
  likeAux (pl.length + sl.length + 1) pl sl

/-!
Generic stable insertion sort used to model SQL ORDER BY.  It is written by
structural recursion so concrete queries evaluate inside the kernel.
-/

/-- Insert an element into a sorted list, after all elements le-below it. -/
def insertLe {α : Type} (le : α → α → Bool) (a : α) : List α → List α
  | [] => [a]
  | b :: bs => if le b a then b :: insertLe le a bs else a :: b :: bs

/-- Insertion sort with respect to a boolean comparator. -/
def sortBy {α : Type} (le : α → α → Bool) : List α → List α
  | [] => []
  | a :: as => insertLe le a (sortBy le as)

/-!
Data model.  One row of the messages table created by init_db in
app/models.py.  All columns are TEXT; only the text column is nullable in
practice (the handler always supplies the other five), which the field types
record.
-/

/-- One stored row of the messages table. -/
structure Message where
  message_id : String
  from_msisdn : String
  to_msisdn : String
  ts : String
  text : Option String
  created_at : String
deriving DecidableEq

/-- Result classification of insert_message in app/storage.py. -/
inductive InsertOutcome
  | created
  | duplicate
deriving DecidableEq

/-- The uniqueness constraints a table declares; an INSERT raises
IntegrityError exactly when one of them is violated. -/
structure TableConstraints where
  pkColumns : List String
deriving DecidableEq

/-- The constraints of the messages table exactly as created by init_db in
app/models.py lines 52-61: the CREATE TABLE statement declares six columns
(message_id, from_msisdn, to_msisdn, ts, text, created_at) with NOT NULL on
all but text, and declares no PRIMARY KEY and no UNIQUE constraint. -/
def messagesTableConstraints : TableConstraints := { pkColumns := [] }

/-- Value of a named column of a row (None for an unknown name). -/
def columnValue (m : Message) : String → Option String
  | "message_id" => some m.message_id
  | "from_msisdn" => some m.from_msisdn
  | "to_msisdn" => some m.to_msisdn
  | "ts" => some m.ts
  | "text" => m.text
  | "created_at" => some m.created_at
  | _ => none

/-- The tuple of primary-key column values of a row. -/
def pkTuple (cs : TableConstraints) (m : Message) : List (Option String) :=
  cs.pkColumns.map (columnValue m)

/-- Whether inserting the row would violate a declared uniqueness constraint,
which is the condition under which sqlite3 raises IntegrityError for the
INSERT executed by insert_message. -/
def insertViolates (cs : TableConstraints) (db : List Message) (m : Message) : Bool :=
  !cs.pkColumns.isEmpty && db.any fun ex => decide (pkTuple cs ex = pkTuple cs m)

/-- Model of insert_message in app/storage.py lines 6-36: execute the INSERT;
if sqlite3 raises IntegrityError return duplicate and leave the table
unchanged, otherwise commit the appended row and return created. -/
def insert_message (db : List Message) (m : Message) : InsertOutcome × List Message :=
  if insertViolates messagesTableConstraints db m then (InsertOutcome.duplicate, db)
  else (InsertOutcome.created, db ++ [m])

/-- Row predicate of the WHERE clause built by fetch_messages in
app/storage.py lines 62-80: equality on from_msisdn, inclusive lower bound
on ts under the BINARY collation, and text LIKE the pattern percent-q-percent
with q inserted verbatim (a NULL text never matches LIKE). -/
def matchesFilters (fromF sinceF qF : Option String) (m : Message) : Bool :=
  (match fromF with
   | none => true
   | some f => decide (m.from_msisdn = f)) &&
  (match sinceF with
   | none => true
   | some since => strLe since m.ts) &&
  (match qF with
   | none => true
   | some q =>
     match m.text with
     | none => false
     | some t => sqlLike t ("%" ++ q ++ "%"))

/-- Strict version of the ORDER BY (ts ASC, message_id ASC) key order. -/
def msgKeyLt (m1 m2 : Message) : Bool :=
  strLt m1.ts m2.ts || (decide (m1.ts = m2.ts) && strLt m1.message_id m2.message_id)

/-- The ORDER BY (ts ASC, message_id ASC) comparator of fetch_messages. -/
def msgKeyLe (m1 m2 : Message) : Bool :=
  msgKeyLt m1 m2 || (decide (m1.ts = m2.ts) && decide (m1.message_id = m2.message_id))

/-- Model of fetch_messages in app/storage.py lines 39-102: one COUNT query
over the WHERE clause and one data query with ORDER BY ts ASC, message_id ASC
and LIMIT/OFFSET, both over the same table state. -/
def fetch_messages (db : List Message) (limit offset : Nat)
    (fromF sinceF qF : Option String) : List Message × Nat :=
  let filtered := db.filter (matchesFilters fromF sinceF qF)
  (((sortBy msgKeyLe filtered).drop offset).take limit, filtered.length)

/-- Smaller of two strings under the BINARY collation (SQL MIN aggregation). -/
def minStr (a b : String) : String := if strLt b a then b else a

/-- Larger of two strings under the BINARY collation (SQL MAX aggregation). -/
def maxStr (a b : String) : String := if strLt a b then b else a

/-- Aggregate statistics returned by get_stats in app/storage.py. -/
structure Stats where
  total_messages : Nat
  senders_count : Nat
  messages_per_sender : List (String × Nat)
  first_message_ts : Option String
  last_message_ts : Option String
deriving DecidableEq

/-- Per-sender message counts, in the ascending sender order in which the
GROUP BY from_msisdn query emits its groups. -/
def senderCounts (db : List Message) : List (String × Nat) :=
  (sortBy strLe (db.map fun m => m.from_msisdn).dedup).map
    fun s => (s, (db.filter fun m => decide (m.from_msisdn = s)).length)

/-- The ORDER BY count DESC comparator of the top-senders query.  The SQL
orders only by count descending; the relative order of senders with equal
counts is left unspecified by the query, so it is a parameter tieBreak of
the model rather than a fixed rule. -/
def topSendersLe (tieBreak : String → String → Bool) (a b : String × Nat) : Bool :=
  b.2 < a.2 || (decide (a.2 = b.2) && tieBreak a.1 b.1)

/-- Model of get_stats in app/storage.py lines 105-140: COUNT with MIN/MAX
over ts, COUNT DISTINCT over from_msisdn, and the GROUP BY query ordered by
count descending with LIMIT 10.  tieBreak supplies the engine order among
equal counts, which the SQL leaves unspecified. -/
def get_stats (tieBreak : String → String → Bool) (db : List Message) : Stats :=
  { total_messages := db.length
    senders_count := (db.map fun m => m.from_msisdn).dedup.length
    messages_per_sender := (sortBy (topSendersLe tieBreak) (senderCounts db)).take 10
    first_message_ts :=
      match db.map fun m => m.ts with
      | [] => none
      | t :: rest => some (rest.foldl minStr t)
    last_message_ts :=
      match db.map fun m => m.ts with
      | [] => none
      | t :: rest => some (rest.foldl maxStr t) }

/-!
Webhook handler model, from app/main.py.  The pydantic JSON decoding of the
raw body is an external collaborator, so the handler takes the decoding
result as an Option: none models a body that failed JSON decoding (pydantic
raises ValidationError for it as well), some p models a decoded object whose
field validators are then checked by validatePayload.
-/

/-- The webhook payload shape of the WebhookPayload pydantic model in
app/main.py lines 66-96. -/
structure WebhookPayload where
  message_id : String
  msisdn_from : String
  msisdn_to : String
  ts : String
  text : Option String
deriving DecidableEq

/-- ASCII digit test; the model of Python str.isdigit on the phone-number
strings of this service, where the empty string tests false. -/
def pyIsDigit (s : List Char) : Bool :=
  !s.isEmpty && s.all fun c => 48 ≤ c.toNat && c.toNat ≤ 57

/-- Phone-number shape of the from and to validators: a leading plus sign
followed by one or more digits. -/
def validMsisdn (v : String) : Bool :=
  strStartsWith v "+" && pyIsDigit (v.toList.drop 1)

/-- Field validation of WebhookPayload: message_id nonempty, from and to
phone-number shaped (to also carries min_length 1), ts nonempty and ending
with Z, text at most 4096 characters when present. -/
def validatePayload (p : WebhookPayload) : Bool :=
  (1 ≤ p.message_id.length) &&
  validMsisdn p.msisdn_from &&
  ((1 ≤ p.msisdn_to.length) && validMsisdn p.msisdn_to) &&
  ((1 ≤ p.ts.length) && strEndsWith p.ts "Z") &&
  (match p.text with
   | none => true
   | some t => t.length ≤ 4096)

/-- Whether a Python str contains only ASCII characters. -/
def isAsciiStr (s : String) : Bool := s.toList.all fun c => c.toNat < 128

/-- Model of hmac.compare_digest applied to two str arguments: CPython raises
TypeError when either string contains a non-ASCII character, and otherwise
returns the boolean equality of the two strings (computed constant-time in
the real implementation).  The error value of the Except models the raised
exception. -/
def compare_digest (a b : String) : Except String Bool :=
  if isAsciiStr a && isAsciiStr b then Except.ok (decide (a = b))
  else Except.error "TypeError"

/-- Model of verify_signature in app/main.py lines 99-114: the hex HMAC-SHA256
digest of the raw body under the configured secret is compared with the
supplied header string by hmac.compare_digest.  The digest is always ASCII
hex, but the header string reaches the handler latin-1-decoded and may hold
non-ASCII characters, in which case compare_digest raises TypeError and
verify_signature propagates it. -/
def verify_signature (secret body signature : String) : Except String Bool :=
  compare_digest (hmacSha256Hex (strBytes secret) (strBytes body)) signature

/-- Outcome classification recorded by the webhook handler. -/
inductive Outcome
  | invalid_signature
  | validation_error
  | created
  | duplicate
deriving DecidableEq

/-- Insert results map one-to-one onto handler outcomes. -/
def outcomeOfInsert : InsertOutcome → Outcome
  | InsertOutcome.created => Outcome.created
  | InsertOutcome.duplicate => Outcome.duplicate

/-- The row the webhook handler passes to insert_message, with created_at
assigned by the server. -/
def mkRecord (p : WebhookPayload) (created_at : String) : Message :=
  ⟨p.message_id, p.msisdn_from, p.msisdn_to, p.ts, p.text, created_at⟩

/-- Model of the webhook handler in app/main.py lines 155-220: reject when
the X-Signature header is absent or empty (Python falsiness) or fails
verification, then reject undecodable or invalid payloads, then insert and
map the insert result to the outcome.  The store state is threaded through
explicitly; branches that never reach the store return it unchanged.  An
exception raised inside verify_signature escapes the handler uncaught, which
the Except error result models: no outcome is classified and the store is
untouched. -/
def webhook (secret : String) (xSignature : Option String) (rawBody : String)
    (payload : Option WebhookPayload) (created_at : String) (db : List Message) :
    Except String (Outcome × List Message) :=
  match xSignature with
  | none => Except.ok (Outcome.invalid_signature, db)
  | some sig =>
    if sig = "" then Except.ok (Outcome.invalid_signature, db)
    else
      match verify_signature secret rawBody sig with
      | Except.error e => Except.error e
      | Except.ok verified =>
        if !verified then Except.ok (Outcome.invalid_signature, db)
        else
          match payload with
          | none => Except.ok (Outcome.validation_error, db)
          | some p =>
            if !validatePayload p then Except.ok (Outcome.validation_error, db)
            else
              let r := insert_message db (mkRecord p created_at)
              Except.ok (outcomeOfInsert r.1, r.2)

/-- Case-insensitive literal substring containment over character lists. -/
def containsSub (sub : List Char) : List Char → Bool
  | [] => sub.isEmpty
  | c :: cs => sub.isPrefixOf (c :: cs) || containsSub sub cs

/-- Modelled from the spec: the query filter q as case-insensitive literal
substring containment on text, the reading both the specification and the
fetch_messages docstring give for the filter. -/
def specContainsCI (t q : String) : Bool :=
  containsSub (q.toList.map lowerAscii) (t.toList.map lowerAscii)

/-- Modelled from the spec: the top-senders order count descending with ties
broken by sender value ascending. -/
def specTopOrder (a b : String × Nat) : Bool :=
  b.2 < a.2 || (decide (a.2 = b.2) && strLe a.1 b.1)

/-- Boolean pairwise distinctness of the (ts, message_id) sort keys. -/
def pairwiseDistinctKeys : List Message → Bool
  | [] => true
  | m :: ms =>
    (ms.all fun x => !(decide (m.ts = x.ts) && decide (m.message_id = x.message_id))) &&
      pairwiseDistinctKeys ms

/-- A sender-descending tie order, one possible engine order among equal
counts for the top-senders query. -/
def tieDesc (a b : String) : Bool := strLe b a

/-- Two-sender store with equal per-sender counts, exercising the top-senders
tie case. -/
def statsCexDb : List Message :=
  [⟨"m1", "+1", "+9", "2025-01-01T00:00:00Z", none, "2025-01-01T00:00:01Z"⟩,
   ⟨"m2", "+2", "+9", "2025-01-02T00:00:00Z", none, "2025-01-02T00:00:01Z"⟩]

/-- First ingest of the duplicate-id scenario. -/
def dupPayload1 : WebhookPayload :=
  ⟨"m-1", "+15550001", "+15550002", "2025-01-01T00:00:00Z", some "first"⟩

/-- Second ingest of the duplicate-id scenario: same message_id, other text. -/
def dupPayload2 : WebhookPayload :=
  ⟨"m-1", "+15550001", "+15550002", "2025-01-01T00:00:00Z", some "second"⟩

/-- First stored row of the storage-level duplicate scenario. -/
def dupRec1 : Message :=
  ⟨"m-1", "+15550001", "+15550002", "2025-01-01T00:00:00Z", some "first", "2025-01-01T00:00:01Z"⟩

/-- Second row of the storage-level duplicate scenario: same message_id with
different field values. -/
def dupRec2 : Message :=
  ⟨"m-1", "+15550003", "+15550004", "2025-01-02T00:00:00Z", some "second", "2025-01-02T00:00:01Z"⟩

/-- Single stored row whose text exercises the LIKE wildcard behavior. -/
def likeCexDb : List Message :=
  [⟨"m-1", "+1555", "+1666", "2025-01-01T00:00:00Z", some "abc", "2025-01-01T00:00:01Z"⟩]

/-- Small two-row store with distinct timestamps for pagination checks. -/
def pageDb : List Message :=
  [⟨"m-2", "+2", "+9", "2025-01-02T00:00:00Z", some "second", "2025-01-02T00:00:01Z"⟩,
   ⟨"m-1", "+1", "+9", "2025-01-01T00:00:00Z", some "first", "2025-01-01T00:00:01Z"⟩]

/-!
Helper lemmas.  First the shape of hex digests, then generic order and
sorting lemmas, then the reductions of the handler pipeline.
-/

theorem char_eq_of_toNat_eq {a b : Char} (h : a.toNat = b.toNat) : a = b :=
  Char.ext (UInt32.ext h)

theorem isHexChar_hexDigit {n : Nat} (h : n < 16) : isHexChar (hexDigit n) = true := by
  have hall : ∀ m : Fin 16, isHexChar (hexDigit m.val) = true := by decide
  exact hall ⟨n, h⟩

theorem bytesToHexChars_cons (b : Nat) (rest : List Nat) :
    bytesToHexChars (b :: rest) = byteToHex b ++ bytesToHexChars rest := rfl

theorem length_bytesToHexChars (bs : List Nat) : (bytesToHexChars bs).length = 2 * bs.length := by
  induction bs with
  | nil => rfl
  | cons b rest ih =>
    rw [bytesToHexChars_cons, List.length_append, ih]
    simp [byteToHex]
    omega

theorem all_isHexChar_bytesToHexChars (bs : List Nat) (h : ∀ b ∈ bs, b < 256) :
    (bytesToHexChars bs).all isHexChar = true := by
  induction bs with
  | nil => rfl
  | cons b rest ih =>
    have hb : b < 256 := h b (List.mem_cons.mpr (Or.inl rfl))
    have h1 : isHexChar (hexDigit (b / 16)) = true := isHexChar_hexDigit (by omega)
    have h2 : isHexChar (hexDigit (b % 16)) = true := isHexChar_hexDigit (by omega)
    have hrest := ih fun x hx => h x (List.mem_cons.mpr (Or.inr hx))
    simp only [bytesToHexChars, List.map_cons, List.flatten_cons, byteToHex] at hrest ⊢
    simp [List.all_append, h1, h2, hrest]

theorem wordToBytes_lt (w : Nat) : ∀ b ∈ wordToBytes w, b < 256 := by
  intro b hb
  simp only [wordToBytes, List.mem_cons, List.not_mem_nil, or_false] at hb
  rcases hb with h | h | h | h <;> subst h <;> omega

theorem sha256Bytes_lt (msg : List Nat) : ∀ b ∈ sha256Bytes msg, b < 256 := by
  intro b hb
  simp only [sha256Bytes, List.mem_append] at hb
  rcases hb with ((((((h | h) | h) | h) | h) | h) | h) | h <;> exact wordToBytes_lt _ b h

theorem sha256Bytes_length (msg : List Nat) : (sha256Bytes msg).length = 32 := by
  simp [sha256Bytes, wordToBytes]

theorem hmacSha256Hex_length (key msg : List Nat) : (hmacSha256Hex key msg).length = 64 := by
  show (bytesToHexChars _).length = 64
  rw [length_bytesToHexChars, sha256Bytes_length]

theorem hmacSha256Hex_all_hex (key msg : List Nat) :
    (hmacSha256Hex key msg).toList.all isHexChar = true := by
  show (bytesToHexChars _).all isHexChar = true
  exact all_isHexChar_bytesToHexChars _ (sha256Bytes_lt _)

theorem isAsciiStr_of_all_hex {s : String} (h : s.toList.all isHexChar = true) :
    isAsciiStr s = true := by
  simp only [isAsciiStr, List.all_eq_true] at h ⊢
  intro c hc
  have hx := h c hc
  simp only [isHexChar, Bool.or_eq_true, Bool.and_eq_true, decide_eq_true_eq] at hx
  simp only [decide_eq_true_eq]
  omega

theorem hmacSha256Hex_ascii (key msg : List Nat) :
    isAsciiStr (hmacSha256Hex key msg) = true :=
  isAsciiStr_of_all_hex (hmacSha256Hex_all_hex key msg)

theorem hmacSha256Hex_ne_empty (key msg : List Nat) : hmacSha256Hex key msg ≠ "" := by
  intro h
  have := hmacSha256Hex_length key msg
  rw [h] at this
  simp [String.length] at this

theorem insert_message_eq (db : List Message) (m : Message) :
    insert_message db m = (InsertOutcome.created, db ++ [m]) := rfl

theorem webhook_valid_sig (secret body ca : String) (p : WebhookPayload) (db : List Message) :
    webhook secret (some (hmacSha256Hex (strBytes secret) (strBytes body))) body (some p) ca db
      = Except.ok (if validatePayload p
          then (Outcome.created, db ++ [mkRecord p ca])
          else (Outcome.validation_error, db)) := by
  have hne : ¬(hmacSha256Hex (strBytes secret) (strBytes body) = "") :=
    hmacSha256Hex_ne_empty _ _
  have hv : verify_signature secret body (hmacSha256Hex (strBytes secret) (strBytes body))
      = Except.ok true := by
    simp [verify_signature, compare_digest, hmacSha256Hex_ascii]
  simp only [webhook, if_neg hne, hv, Bool.not_true, Bool.false_eq_true, if_false]
  cases hval : validatePayload p with
  | true => simp [insert_message_eq, outcomeOfInsert]
  | false => simp

theorem charListLt_irrefl : ∀ l, charListLt l l = false
  | [] => rfl
  | a :: as => by simp [charListLt, charListLt_irrefl as]

theorem charListLt_trans :
    ∀ a b c, charListLt a b = true → charListLt b c = true → charListLt a c = true
  | _, [], _, hab, _ => by simp [charListLt] at hab
  | _, _ :: _, [], _, hbc => by simp [charListLt] at hbc
  | [], _ :: _, _ :: _, _, _ => rfl
  | x :: xs, y :: ys, z :: zs, hab, hbc => by
    simp only [charListLt, Bool.or_eq_true, Bool.and_eq_true, decide_eq_true_eq] at hab hbc ⊢
    rcases hab with hab | ⟨hxy, hab⟩
    · rcases hbc with hbc | ⟨hyz, hbc⟩
      · exact Or.inl (by omega)
      · subst hyz; exact Or.inl hab
    · subst hxy
      rcases hbc with hbc | ⟨hyz, hbc⟩
      · exact Or.inl hbc
      · subst hyz; exact Or.inr ⟨rfl, charListLt_trans _ _ _ hab hbc⟩

theorem charListLt_conn :
    ∀ a b, charListLt a b = false → charListLt b a = false → a = b
  | [], [], _, _ => rfl
  | [], _ :: _, hab, _ => by simp [charListLt] at hab
  | _ :: _, [], _, hba => by simp [charListLt] at hba
  | x :: xs, y :: ys, hab, hba => by
    simp only [charListLt, Bool.or_eq_false_iff, Bool.and_eq_false_iff,
      decide_eq_false_iff_not, decide_eq_true_eq] at hab hba
    obtain ⟨hxy, hab2⟩ := hab
    obtain ⟨hyx, hba2⟩ := hba
    have hx : x = y := by
      apply char_eq_of_toNat_eq
      simp only [decide_eq_false_iff_not, Nat.not_lt] at hxy hyx
      omega
    subst hx
    rcases hab2 with h | hab3
    · simp at h
    · rcases hba2 with h | hba3
      · simp at h
      · rw [charListLt_conn xs ys hab3 hba3]

theorem string_eq_of_toList_eq {a b : String} (h : a.toList = b.toList) : a = b :=
  String.ext h

theorem strLt_irrefl (a : String) : strLt a a = false := charListLt_irrefl _

theorem strLt_trans {a b c : String} (h1 : strLt a b = true) (h2 : strLt b c = true) :
    strLt a c = true := charListLt_trans _ _ _ h1 h2

theorem strLt_conn {a b : String} (h1 : strLt a b = false) (h2 : strLt b a = false) : a = b :=
  string_eq_of_toList_eq (charListLt_conn _ _ h1 h2)

theorem strLe_refl (a : String) : strLe a a = true := by simp [strLe]

theorem strLe_total (a b : String) : strLe a b = true ∨ strLe b a = true := by
  by_cases h1 : strLt a b = true
  · exact Or.inl (by simp [strLe, h1])
  · by_cases h2 : strLt b a = true
    · exact Or.inr (by simp [strLe, h2])
    · have := strLt_conn (Bool.not_eq_true _ ▸ h1 : strLt a b = false)
        (Bool.not_eq_true _ ▸ h2 : strLt b a = false)
      exact Or.inl (by simp [strLe, this])

theorem strLe_trans {a b c : String} (h1 : strLe a b = true) (h2 : strLe b c = true) :
    strLe a c = true := by
  simp only [strLe, Bool.or_eq_true, decide_eq_true_eq] at h1 h2 ⊢
  rcases h1 with h1 | h1
  · rcases h2 with h2 | h2
    · exact Or.inl (strLt_trans h1 h2)
    · subst h2; exact Or.inl h1
  · subst h1; exact h2

theorem strLe_of_strLt {a b : String} (h : strLt a b = true) : strLe a b = true := by
  simp [strLe, h]

theorem strLe_antisymm {a b : String} (h1 : strLe a b = true) (h2 : strLe b a = true) :
    a = b := by
  simp only [strLe, Bool.or_eq_true, decide_eq_true_eq] at h1 h2
  rcases h1 with h1 | h1
  · rcases h2 with h2 | h2
    · have := strLt_trans h1 h2
      rw [strLt_irrefl] at this
      exact absurd this (by simp)
    · exact h2.symm
  · exact h1

theorem msgKeyLe_total (a b : Message) : msgKeyLe a b = true ∨ msgKeyLe b a = true := by
  by_cases h1 : strLt a.ts b.ts = true
  · exact Or.inl (by simp [msgKeyLe, msgKeyLt, h1])
  · by_cases h2 : strLt b.ts a.ts = true
    · exact Or.inr (by simp [msgKeyLe, msgKeyLt, h2])
    · have hts : a.ts = b.ts := strLt_conn (Bool.not_eq_true _ ▸ h1) (Bool.not_eq_true _ ▸ h2)
      by_cases h3 : strLt a.message_id b.message_id = true
      · exact Or.inl (by simp [msgKeyLe, msgKeyLt, hts, h3])
      · by_cases h4 : strLt b.message_id a.message_id = true
        · exact Or.inr (by simp [msgKeyLe, msgKeyLt, hts, h4])
        · have hid : a.message_id = b.message_id :=
            strLt_conn (Bool.not_eq_true _ ▸ h3) (Bool.not_eq_true _ ▸ h4)
          exact Or.inl (by simp [msgKeyLe, msgKeyLt, hts, hid])

theorem msgKeyLe_iff (a b : Message) :
    msgKeyLe a b = true ↔
      strLt a.ts b.ts = true
      ∨ (a.ts = b.ts ∧ strLt a.message_id b.message_id = true)
      ∨ (a.ts = b.ts ∧ a.message_id = b.message_id) := by
  simp [msgKeyLe, msgKeyLt, Bool.or_eq_true, Bool.and_eq_true, decide_eq_true_eq, or_assoc]

theorem msgKeyLe_trans {a b c : Message} (h1 : msgKeyLe a b = true)
    (h2 : msgKeyLe b c = true) : msgKeyLe a c = true := by
  rw [msgKeyLe_iff] at h1 h2 ⊢
  rcases h1 with h1 | ⟨hts1, h1⟩ | ⟨hts1, hid1⟩
  · rcases h2 with h2 | ⟨hts2, _⟩ | ⟨hts2, _⟩
    · exact Or.inl (strLt_trans h1 h2)
    · exact Or.inl (hts2 ▸ h1)
    · exact Or.inl (hts2 ▸ h1)
  · rcases h2 with h2 | ⟨hts2, h2⟩ | ⟨hts2, hid2⟩
    · exact Or.inl (hts1 ▸ h2)
    · exact Or.inr (Or.inl ⟨hts1.trans hts2, strLt_trans h1 h2⟩)
    · exact Or.inr (Or.inl ⟨hts1.trans hts2, hid2 ▸ h1⟩)
  · rcases h2 with h2 | ⟨hts2, h2⟩ | ⟨hts2, hid2⟩
    · exact Or.inl (hts1 ▸ h2)
    · exact Or.inr (Or.inl ⟨hts1.trans hts2, hid1 ▸ h2⟩)
    · exact Or.inr (Or.inr ⟨hts1.trans hts2, hid1.trans hid2⟩)

theorem msgKeyLt_of_le_of_ne {a b : Message} (h : msgKeyLe a b = true)
    (hne : ¬(a.ts = b.ts ∧ a.message_id = b.message_id)) : msgKeyLt a b = true := by
  rw [msgKeyLe_iff] at h
  rcases h with h | ⟨hts, h⟩ | ⟨hts, hid⟩
  · simp [msgKeyLt, h]
  · simp [msgKeyLt, hts, h]
  · exact absurd ⟨hts, hid⟩ hne

theorem insertLe_perm {α : Type} (le : α → α → Bool) (a : α) :
    ∀ l, (insertLe le a l).Perm (a :: l)
  | [] => List.Perm.refl _
  | b :: bs => by
    simp only [insertLe]
    by_cases h : le b a = true
    · rw [if_pos h]
      exact ((insertLe_perm le a bs).cons b).trans (List.Perm.swap a b bs)
    · rw [if_neg h]

theorem sortBy_perm {α : Type} (le : α → α → Bool) : ∀ l, (sortBy le l).Perm l
  | [] => List.Perm.refl _
  | a :: as =>
    (insertLe_perm le a (sortBy le as)).trans ((sortBy_perm le as).cons a)

theorem pairwise_insertLe {α : Type} (le : α → α → Bool) (R : α → α → Prop)
    (hleR : ∀ x y, le x y = true → R x y)
    (htot : ∀ x y, le x y = true ∨ le y x = true)
    (hcomp : ∀ x y z, le x y = true → R y z → R x z) (a : α) :
    ∀ l, List.Pairwise R l → List.Pairwise R (insertLe le a l)
  | [], _ => List.pairwise_cons.mpr ⟨by simp, List.Pairwise.nil⟩
  | b :: bs, h => by
    obtain ⟨hb, hbs⟩ := List.pairwise_cons.mp h
    simp only [insertLe]
    by_cases hba : le b a = true
    · rw [if_pos hba]
      refine List.pairwise_cons.mpr ⟨?_, pairwise_insertLe le R hleR htot hcomp a bs hbs⟩
      intro x hx
      rcases List.mem_cons.mp ((insertLe_perm le a bs).mem_iff.mp hx) with hxa | hxbs
      · exact hxa ▸ hleR b a hba
      · exact hb x hxbs
    · rw [if_neg hba]
      have hab : le a b = true := (htot a b).resolve_right hba
      refine List.pairwise_cons.mpr ⟨?_, h⟩
      intro x hx
      rcases List.mem_cons.mp hx with hxb | hxbs
      · exact hxb ▸ hleR a b hab
      · exact hcomp a b x hab (hb x hxbs)

theorem pairwise_sortBy {α : Type} (le : α → α → Bool) (R : α → α → Prop)
    (hleR : ∀ x y, le x y = true → R x y)
    (htot : ∀ x y, le x y = true ∨ le y x = true)
    (hcomp : ∀ x y z, le x y = true → R y z → R x z) :
    ∀ l, List.Pairwise R (sortBy le l)
  | [] => List.Pairwise.nil
  | a :: as =>
    pairwise_insertLe le R hleR htot hcomp a (sortBy le as)
      (pairwise_sortBy le R hleR htot hcomp as)

theorem flatten_pages {α : Type} (k : Nat) :
    ∀ (n : Nat) (l : List α), l.length ≤ n * k →
      ((List.range n).map fun i => (l.drop (k * i)).take k).flatten = l := by
  intro n
  induction n with
  | zero =>
    intro l h
    have : l = [] := List.length_eq_zero.mp (Nat.le_zero.mp (by simpa using h))
    simp [this]
  | succ n ih =>
    intro l h
    have h1 : ∀ i : Nat, (l.drop (k * (i + 1))).take k = ((l.drop k).drop (k * i)).take k := by
      intro i
      rw [List.drop_drop]
      congr 2
      ring
    rw [List.range_succ_eq_map, List.map_cons, List.map_map, List.flatten_cons]
    have h2 : (List.map ((fun i => (l.drop (k * i)).take k) ∘ Nat.succ) (List.range n))
        = List.map (fun i => ((l.drop k).drop (k * i)).take k) (List.range n) := by
      apply List.map_congr_left
      intro i _
      simp only [Function.comp]
      exact h1 i
    rw [Nat.succ_mul] at h
    rw [h2, ih (l.drop k) (by simp only [List.length_drop]; omega)]
    simp [Nat.mul_zero, List.drop_zero, List.take_append_drop]

theorem minStr_eq_or (a b : String) : minStr a b = a ∨ minStr a b = b := by
  unfold minStr
  split
  · exact Or.inr rfl
  · exact Or.inl rfl

theorem minStr_le_left (a b : String) : strLe (minStr a b) a = true := by
  unfold minStr
  split
  · next h => exact strLe_of_strLt h
  · exact strLe_refl a

theorem minStr_le_right (a b : String) : strLe (minStr a b) b = true := by
  unfold minStr
  split
  · exact strLe_refl b
  · next h =>
    rcases strLe_total a b with hab | hba
    · exact hab
    · simp only [strLe, Bool.or_eq_true, decide_eq_true_eq] at hba
      rcases hba with hba | hba
      · exact absurd hba (by simpa using h)
      · simp [strLe, hba]

theorem maxStr_ge_left (a b : String) : strLe a (maxStr a b) = true := by
  unfold maxStr
  split
  · next h => exact strLe_of_strLt h
  · exact strLe_refl a

theorem maxStr_ge_right (a b : String) : strLe b (maxStr a b) = true := by
  unfold maxStr
  split
  · exact strLe_refl b
  · next h =>
    rcases strLe_total b a with hba | hab
    · exact hba
    · simp only [strLe, Bool.or_eq_true, decide_eq_true_eq] at hab
      rcases hab with hab | hab
      · exact absurd hab (by simpa using h)
      · simp [strLe, hab]

theorem maxStr_eq_or (a b : String) : maxStr a b = a ∨ maxStr a b = b := by
  unfold maxStr
  split
  · exact Or.inr rfl
  · exact Or.inl rfl

theorem foldl_minStr_mem : ∀ (l : List String) (a : String), l.foldl minStr a ∈ a :: l
  | [], a => by simp
  | b :: bs, a => by
    have ih := foldl_minStr_mem bs (minStr a b)
    simp only [List.foldl_cons]
    rcases List.mem_cons.mp ih with h | h
    · rw [h]
      rcases minStr_eq_or a b with h2 | h2 <;> rw [h2] <;> simp
    · exact List.mem_cons.mpr (Or.inr (List.mem_cons.mpr (Or.inr h)))

theorem foldl_minStr_le : ∀ (l : List String) (a t : String),
    t ∈ a :: l → strLe (l.foldl minStr a) t = true
  | [], a, t, ht => by
    simp at ht
    simp [ht, strLe_refl]
  | b :: bs, a, t, ht => by
    have hmin : strLe (List.foldl minStr (minStr a b) bs) (minStr a b) = true :=
      foldl_minStr_le bs (minStr a b) (minStr a b) (List.mem_cons.mpr (Or.inl rfl))
    simp only [List.foldl_cons]
    rcases List.mem_cons.mp ht with h | h
    · exact strLe_trans hmin (h ▸ minStr_le_left a b)
    · rcases List.mem_cons.mp h with h2 | h2
      · exact strLe_trans hmin (h2 ▸ minStr_le_right a b)
      · exact foldl_minStr_le bs (minStr a b) t (List.mem_cons.mpr (Or.inr h2))

theorem foldl_maxStr_mem : ∀ (l : List String) (a : String), l.foldl maxStr a ∈ a :: l
  | [], a => by simp
  | b :: bs, a => by
    have ih := foldl_maxStr_mem bs (maxStr a b)
    simp only [List.foldl_cons]
    rcases List.mem_cons.mp ih with h | h
    · rw [h]
      rcases maxStr_eq_or a b with h2 | h2 <;> rw [h2] <;> simp
    · exact List.mem_cons.mpr (Or.inr (List.mem_cons.mpr (Or.inr h)))

theorem foldl_maxStr_ge : ∀ (l : List String) (a t : String),
    t ∈ a :: l → strLe t (l.foldl maxStr a) = true
  | [], a, t, ht => by
    simp at ht
    simp [ht, strLe_refl]
  | b :: bs, a, t, ht => by
    have hmax : strLe (maxStr a b) (List.foldl maxStr (maxStr a b) bs) = true :=
      foldl_maxStr_ge bs (maxStr a b) (maxStr a b) (List.mem_cons.mpr (Or.inl rfl))
    simp only [List.foldl_cons]
    rcases List.mem_cons.mp ht with h | h
    · exact strLe_trans (h ▸ maxStr_ge_left a b) hmax
    · rcases List.mem_cons.mp h with h2 | h2
      · exact strLe_trans (h2 ▸ maxStr_ge_right a b) hmax
      · exact foldl_maxStr_ge bs (maxStr a b) t (List.mem_cons.mpr (Or.inr h2))

theorem pairwiseDistinctKeys_pairwise : ∀ db, pairwiseDistinctKeys db = true →
    List.Pairwise (fun a b : Message => ¬(a.ts = b.ts ∧ a.message_id = b.message_id)) db
  | [], _ => List.Pairwise.nil
  | m :: ms, h => by
    simp only [pairwiseDistinctKeys, Bool.and_eq_true, List.all_eq_true] at h
    obtain ⟨hall, hrest⟩ := h
    refine List.pairwise_cons.mpr ⟨?_, pairwiseDistinctKeys_pairwise ms hrest⟩
    intro x hx hcontra
    have := hall x hx
    simp only [Bool.not_eq_true', Bool.and_eq_false_iff, decide_eq_false_iff_not] at this
    rcases this with h1 | h1
    · exact h1 hcontra.1
    · exact h1 hcontra.2

theorem validMsisdn_length {v : String} (h : validMsisdn v = true) : 1 ≤ v.length := by
  simp only [validMsisdn, Bool.and_eq_true, strStartsWith] at h
  have hp := (List.isPrefixOf_iff_prefix.mp h.1).length_le
  have h1 : ("+".toList).length = 1 := rfl
  have h2 : v.toList.length = v.length := rfl
  omega

/-!
Claim theorems.
-/

/-- C1.  The claim states that a second ingest of a valid signed payload
reusing an existing message_id returns the outcome duplicate and leaves the
stored record unchanged.  The code does not do this: the CREATE TABLE in
init_db declares no PRIMARY KEY or UNIQUE constraint on message_id, so the
INSERT in insert_message never raises IntegrityError, the second ingest also
returns created, and a second record with the same message_id and different
text is stored alongside the first. -/
theorem C1_second_ingest_of_same_id_returns_created :
    webhook "s3cret" (some (hmacSha256Hex (strBytes "s3cret") (strBytes "body-1"))) "body-1"
        (some dupPayload1) "2025-01-01T00:00:01Z" []
      = Except.ok (Outcome.created, [mkRecord dupPayload1 "2025-01-01T00:00:01Z"])
    ∧ webhook "s3cret" (some (hmacSha256Hex (strBytes "s3cret") (strBytes "body-2"))) "body-2"
        (some dupPayload2) "2025-01-02T00:00:01Z" [mkRecord dupPayload1 "2025-01-01T00:00:01Z"]
      = Except.ok (Outcome.created,
         [mkRecord dupPayload1 "2025-01-01T00:00:01Z", mkRecord dupPayload2 "2025-01-02T00:00:01Z"])
    ∧ dupPayload1.message_id = dupPayload2.message_id
    ∧ dupPayload1.text ≠ dupPayload2.text := by
  refine ⟨?_, ?_, ?_, ?_⟩
  · rw [webhook_valid_sig]
    exact congrArg Except.ok (by decide)
  · rw [webhook_valid_sig]
    exact congrArg Except.ok (by decide)
  · decide
  · decide

/-- C2.  The claim states a storage-layer uniqueness invariant: at most one
record per message_id, with a repeated insert reporting duplication and not
mutating the store.  The schema created by init_db has no uniqueness
constraint at all (pkColumns is empty), so insert_message accepts a second
row with the same message_id, reports created again, and afterwards two
stored records share the id. -/
theorem C2_store_accepts_second_record_with_same_id :
    messagesTableConstraints.pkColumns = []
    ∧ insert_message [] dupRec1 = (InsertOutcome.created, [dupRec1])
    ∧ insert_message [dupRec1] dupRec2 = (InsertOutcome.created, [dupRec1, dupRec2])
    ∧ dupRec1.message_id = dupRec2.message_id
    ∧ dupRec1.from_msisdn ≠ dupRec2.from_msisdn
    ∧ ([dupRec1, dupRec2].filter fun m => decide (m.message_id = "m-1")).length = 2 := by
  decide

/-- C6.  The claim states that the q filter returns exactly the records whose
text contains q as a case-insensitive literal substring.  The code passes q
unescaped into the LIKE pattern, so the wildcard characters of q are
interpreted: with the single stored text abc, the filter q = a_c matches and
the row is returned with totalCount 1, although a_c is not a literal
substring of abc. -/
theorem C6_like_wildcards_leak_into_text_filter :
    fetch_messages likeCexDb 50 0 none none (some "a_c") = (likeCexDb, 1)
    ∧ specContainsCI "abc" "a_c" = false := by
  decide

/-- C10.  On an empty store, get_stats returns zero totals, the empty
top-senders list, and absent first and last timestamps, for every engine tie
order. -/
theorem C10_stats_empty_store (tieBreak : String → String → Bool) :
    get_stats tieBreak []
      = { total_messages := 0, senders_count := 0, messages_per_sender := [],
          first_message_ts := none, last_message_ts := none } := rfl

/-- C3.  Whenever the X-Signature header is absent, or carries any ASCII
string other than the hex HMAC-SHA256 digest of the raw body under the
configured secret (every signature computed with a different secret or over
a mutated body is such a string whenever the digests differ, hex digests
being ASCII), the handler returns invalid_signature and the store state is
returned unchanged: the store is never reached. -/
theorem C3_bad_or_missing_signature_rejected (secret rawBody created_at : String)
    (payload : Option WebhookPayload) (db : List Message) (xsig : Option String)
    (h : ∀ s, xsig = some s → s ≠ hmacSha256Hex (strBytes secret) (strBytes rawBody))
    (hascii : ∀ s, xsig = some s → isAsciiStr s = true) :
    webhook secret xsig rawBody payload created_at db
      = Except.ok (Outcome.invalid_signature, db) := by
  cases xsig with
  | none => rfl
  | some s =>
    have hs : s ≠ hmacSha256Hex (strBytes secret) (strBytes rawBody) := h s rfl
    by_cases he : s = ""
    · simp [webhook, he]
    · have hv : verify_signature secret rawBody s = Except.ok false := by
        have h1 : isAsciiStr s = true := hascii s rfl
        have h2 : ¬(hmacSha256Hex (strBytes secret) (strBytes rawBody) = s) :=
          fun hcontra => hs hcontra.symm
        simp [verify_signature, compare_digest, hmacSha256Hex_ascii, h1, h2]
      simp [webhook, he, hv]

/-- C3 witness: a request with no signature header, and a request signed with
a different secret over the same body, are both rejected without touching
the store. -/
theorem C3_bad_or_missing_signature_rejected_witness :
    webhook "s3cret" none "body" none "2025-01-01T00:00:01Z" []
      = Except.ok (Outcome.invalid_signature, [])
    ∧ webhook "s3cret" (some (hmacSha256Hex (strBytes "other") (strBytes "body"))) "body"
        none "2025-01-01T00:00:01Z" []
      = Except.ok (Outcome.invalid_signature, []) := by
  constructor
  · exact C3_bad_or_missing_signature_rejected "s3cret" "body" "2025-01-01T00:00:01Z" none []
      none (fun s hs => by cases hs) (fun s hs => by cases hs)
  · exact C3_bad_or_missing_signature_rejected "s3cret" "body" "2025-01-01T00:00:01Z" none []
      (some (hmacSha256Hex (strBytes "other") (strBytes "body")))
      (fun s hs => by
        injection hs with h2
        rw [← h2]
        decide)
      (fun s hs => by
        injection hs with h2
        rw [← h2]
        exact hmacSha256Hex_ascii _ _)

/-- C8 counterexample.  The claim says verification returns a boolean and
never raises for every supplied signature string.  It does not: for a
signature string containing a non-ASCII character — reachable because the
HTTP layer hands the header value to the handler as a latin-1-decoded str —
hmac.compare_digest raises TypeError instead of returning false. -/
theorem C8_nonascii_signature_raises :
    verify_signature "s3cret" "hello" "déadbeef" = Except.error "TypeError" := rfl

/-- C8 amended.  Restricted to ASCII signature strings (all hex digests, and
all well-formed signatures, are ASCII), verification returns a boolean and
never raises: it accepts exactly the hex HMAC-SHA256 digest of the body
under the secret, any mismatch including a malformed (non-hex) ASCII string
yields false rather than an error, and the empty secret runs through the
same HMAC computation with no bypass (the statement quantifies over every
secret including the empty string).  A non-ASCII signature string instead
propagates a TypeError from the constant-time comparison.  The digest
itself is 64 lowercase hex characters, hence ASCII. -/
theorem C8_verify_signature_amended (secret body sig : String) :
    (verify_signature secret body sig = Except.ok true
      ↔ sig = hmacSha256Hex (strBytes secret) (strBytes body))
    ∧ (isAsciiStr sig = true →
        verify_signature secret body sig
          = Except.ok (decide (hmacSha256Hex (strBytes secret) (strBytes body) = sig)))
    ∧ (isAsciiStr sig = true → sig.toList.all isHexChar = false →
        verify_signature secret body sig = Except.ok false)
    ∧ (isAsciiStr sig = false →
        verify_signature secret body sig = Except.error "TypeError")
    ∧ ((hmacSha256Hex (strBytes secret) (strBytes body)).length = 64
        ∧ (hmacSha256Hex (strBytes secret) (strBytes body)).toList.all isHexChar = true
        ∧ isAsciiStr (hmacSha256Hex (strBytes secret) (strBytes body)) = true) := by
  have hdig := hmacSha256Hex_ascii (strBytes secret) (strBytes body)
  have hP2 : isAsciiStr sig = true →
      verify_signature secret body sig
        = Except.ok (decide (hmacSha256Hex (strBytes secret) (strBytes body) = sig)) := by
    intro hA
    simp [verify_signature, compare_digest, hdig, hA]
  have hP4 : isAsciiStr sig = false →
      verify_signature secret body sig = Except.error "TypeError" := by
    intro hA
    simp [verify_signature, compare_digest, hA]
  refine ⟨?_, hP2, ?_, hP4, hmacSha256Hex_length _ _, hmacSha256Hex_all_hex _ _, hdig⟩
  · constructor
    · intro hok
      cases hA : isAsciiStr sig with
      | false =>
        rw [hP4 hA] at hok
        simp at hok
      | true =>
        rw [hP2 hA] at hok
        injection hok with h2
        exact (of_decide_eq_true h2).symm
    · intro hs
      have hA : isAsciiStr sig = true := by rw [hs]; exact hdig
      rw [hP2 hA, hs]
      simp
  · intro hA hhex
    rw [hP2 hA]
    have hne : ¬(hmacSha256Hex (strBytes secret) (strBytes body) = sig) := by
      intro hcontra
      have hall := hmacSha256Hex_all_hex (strBytes secret) (strBytes body)
      rw [hcontra] at hall
      rw [hall] at hhex
      exact absurd hhex (by simp)
    simp [hne]

/-- C8 witness: a malformed but ASCII signature string is rejected with the
boolean false rather than an error. -/
theorem C8_verify_signature_amended_witness :
    verify_signature "s3cret" "hello" "not-hex!" = Except.ok false :=
  (C8_verify_signature_amended "s3cret" "hello" "not-hex!").2.2.1 (by decide) (by decide)

/-- C9.  The ts validator checks only the trailing character: a payload whose
ts is any nonempty string ending in Z, all other fields valid and the
signature valid, is accepted and its ts is stored verbatim in the appended
record (the outcome is created, since the schema enforces no uniqueness). -/
theorem C9_ts_suffix_only_validation (secret body created_at mid f t tsv : String)
    (txt : Option String) (db : List Message)
    (hm : 1 ≤ mid.length) (hf : validMsisdn f = true) (ht : validMsisdn t = true)
    (hts1 : 1 ≤ tsv.length) (htsz : strEndsWith tsv "Z" = true)
    (htxt : ∀ s, txt = some s → s.length ≤ 4096) :
    webhook secret (some (hmacSha256Hex (strBytes secret) (strBytes body))) body
        (some ⟨mid, f, t, tsv, txt⟩) created_at db
      = Except.ok (Outcome.created, db ++ [⟨mid, f, t, tsv, txt, created_at⟩]) := by
  have hval : validatePayload ⟨mid, f, t, tsv, txt⟩ = true := by
    have h2 : 1 ≤ t.length := validMsisdn_length ht
    cases txt with
    | none => simp [validatePayload, hf, ht, htsz, hm, hts1, h2]
    | some s =>
      have hs : s.length ≤ 4096 := htxt s rfl
      simp [validatePayload, hf, ht, htsz, hm, hts1, h2, hs]
  rw [webhook_valid_sig, hval]
  simp [mkRecord]

/-- C9 witness: the string not-a-timestampZ is not an ISO-8601 timestamp but
ends in Z, so a validly signed payload carrying it is accepted and the value
is stored verbatim. -/
theorem C9_ts_suffix_only_validation_witness :
    webhook "s3cret" (some (hmacSha256Hex (strBytes "s3cret") (strBytes "body"))) "body"
        (some ⟨"m-9", "+15550001", "+15550002", "not-a-timestampZ", some "hello"⟩)
        "2025-01-01T00:00:01Z" []
      = Except.ok (Outcome.created,
         [⟨"m-9", "+15550001", "+15550002", "not-a-timestampZ", some "hello",
           "2025-01-01T00:00:01Z"⟩]) :=
  C9_ts_suffix_only_validation "s3cret" "body" "2025-01-01T00:00:01Z"
    "m-9" "+15550001" "+15550002" "not-a-timestampZ" (some "hello") []
    (by decide) (by decide) (by decide) (by decide) (by decide)
    (fun s hs => by injection hs with h2; rw [← h2]; decide)

/-- C5.  Query results are ordered by the strict key (ts ascending,
message_id ascending) — a total order on stores whose rows have pairwise
distinct keys — and paging with any positive page size k over offsets
0, k, 2k, ... concatenates, over enough pages, to exactly the full ordered
filtered result, with no duplicates and no gaps. -/
theorem C5_ordering_and_pagination (db : List Message) (fromF sinceF qF : Option String)
    (k n : Nat) (hk : 0 < k)
    (hdist : pairwiseDistinctKeys db = true)
    (hn : (fetch_messages db k 0 fromF sinceF qF).2 ≤ n * k) :
    (∀ limit offset, List.Pairwise (fun a b : Message => msgKeyLt a b = true)
        (fetch_messages db limit offset fromF sinceF qF).1)
    ∧ ((List.range n).map fun i => (fetch_messages db k (k * i) fromF sinceF qF).1).flatten
        = (fetch_messages db (fetch_messages db k 0 fromF sinceF qF).2 0 fromF sinceF qF).1 := by
  have _ := hk
  set filtered := db.filter (matchesFilters fromF sinceF qF) with hfiltered
  set sorted := sortBy msgKeyLe filtered with hsorted
  have hfetch1 : ∀ limit offset, (fetch_messages db limit offset fromF sinceF qF).1
      = (sorted.drop offset).take limit := fun _ _ => rfl
  have hfetch2 : (fetch_messages db k 0 fromF sinceF qF).2 = filtered.length := rfl
  have hlen : sorted.length = filtered.length := (sortBy_perm msgKeyLe filtered).length_eq
  have hle : List.Pairwise (fun a b : Message => msgKeyLe a b = true) sorted :=
    pairwise_sortBy msgKeyLe _ (fun _ _ h => h) msgKeyLe_total
      (fun _ _ _ h1 h2 => msgKeyLe_trans h1 h2) filtered
  have hnef : List.Pairwise
      (fun a b : Message => ¬(a.ts = b.ts ∧ a.message_id = b.message_id)) filtered :=
    List.Pairwise.sublist (List.filter_sublist db) (pairwiseDistinctKeys_pairwise db hdist)
  have hnes : List.Pairwise
      (fun a b : Message => ¬(a.ts = b.ts ∧ a.message_id = b.message_id)) sorted :=
    (List.Perm.pairwise_iff
      (fun h hc => h ⟨hc.1.symm, hc.2.symm⟩) (sortBy_perm msgKeyLe filtered)).mpr hnef
  have hlt : List.Pairwise (fun a b : Message => msgKeyLt a b = true) sorted :=
    (hle.and hnes).imp fun hc => msgKeyLt_of_le_of_ne hc.1 hc.2
  constructor
  · intro limit offset
    rw [hfetch1]
    exact List.Pairwise.sublist
      ((List.take_sublist _ _).trans (List.drop_sublist _ _)) hlt
  · simp only [hfetch1, hfetch2]
    rw [List.drop_zero, ← hlen, List.take_length]
    exact flatten_pages k n sorted (by rw [hlen]; exact hfetch2 ▸ hn)

/-- C5 witness: the concrete two-row store with distinct timestamps, page
size 1 and two pages. -/
theorem C5_ordering_and_pagination_witness :
    0 < 1 ∧ pairwiseDistinctKeys pageDb = true
    ∧ (fetch_messages pageDb 1 0 none none none).2 ≤ 2 * 1
    ∧ ((∀ limit offset, List.Pairwise (fun a b : Message => msgKeyLt a b = true)
          (fetch_messages pageDb limit offset none none none).1)
       ∧ ((List.range 2).map fun i => (fetch_messages pageDb 1 (1 * i) none none none).1).flatten
           = (fetch_messages pageDb (fetch_messages pageDb 1 0 none none none).2 0
               none none none).1) :=
  ⟨by decide, by decide, by decide,
   C5_ordering_and_pagination pageDb none none none 1 2 (by decide) (by decide) (by decide)⟩

/-- C7 counterexample.  The top-senders query orders only by count
descending; with two senders of equal counts and a sender-descending engine
tie order — one allowed by the SQL, which fixes no tie rule — the returned
list is not ordered by sender value ascending among equal counts, refuting
the tie-break clause of the claim. -/
theorem C7_tie_break_counterexample :
    (get_stats tieDesc statsCexDb).messages_per_sender = [("+2", 1), ("+1", 1)]
    ∧ ¬ List.Pairwise (fun a b : String × Nat => specTopOrder a b = true)
        (get_stats tieDesc statsCexDb).messages_per_sender := by
  decide

/-- C7 amended.  For every total engine tie order and nonempty store, stats
returns: total_messages equal to the number of stored records, senders_count
equal to the number of distinct senders, messages_per_sender of at most 10
entries ordered by count descending (tie order engine-determined, not
necessarily sender ascending) with each entry carrying its sender's exact
count, and first/last timestamps equal to the minimum and maximum stored ts
under the BINARY collation. -/
theorem C7_top_senders_amended (tieBreak : String → String → Bool) (db : List Message)
    (htot : ∀ x y, tieBreak x y = true ∨ tieBreak y x = true)
    (hne : db ≠ []) :
    (get_stats tieBreak db).total_messages = db.length
    ∧ (get_stats tieBreak db).senders_count = (db.map fun m => m.from_msisdn).dedup.length
    ∧ (get_stats tieBreak db).messages_per_sender.length ≤ 10
    ∧ List.Pairwise (fun a b : String × Nat => b.2 ≤ a.2)
        (get_stats tieBreak db).messages_per_sender
    ∧ (∀ p ∈ (get_stats tieBreak db).messages_per_sender,
        p.2 = (db.filter fun m => decide (m.from_msisdn = p.1)).length
        ∧ p.1 ∈ db.map fun m => m.from_msisdn)
    ∧ (∃ t0, (get_stats tieBreak db).first_message_ts = some t0
        ∧ t0 ∈ db.map (fun m => m.ts)
        ∧ ∀ t ∈ db.map (fun m => m.ts), strLe t0 t = true)
    ∧ (∃ t1, (get_stats tieBreak db).last_message_ts = some t1
        ∧ t1 ∈ db.map (fun m => m.ts)
        ∧ ∀ t ∈ db.map (fun m => m.ts), strLe t t1 = true) := by
  obtain ⟨m, rest, rfl⟩ : ∃ m rest, db = m :: rest := by
    cases db with
    | nil => exact absurd rfl hne
    | cons m rest => exact ⟨m, rest, rfl⟩
  refine ⟨rfl, rfl, ?_, ?_, ?_, ?_, ?_⟩
  · show ((sortBy _ (senderCounts _)).take 10).length ≤ 10
    rw [List.length_take]
    omega
  · show List.Pairwise _ ((sortBy (topSendersLe tieBreak) (senderCounts _)).take 10)
    refine List.Pairwise.sublist (List.take_sublist _ _) ?_
    refine pairwise_sortBy _ _ ?_ ?_ ?_ _
    · intro x y h
      simp only [topSendersLe, Bool.or_eq_true, Bool.and_eq_true, decide_eq_true_eq] at h
      rcases h with h | ⟨h, _⟩ <;> omega
    · intro x y
      rcases Nat.lt_trichotomy x.2 y.2 with h | h | h
      · exact Or.inr (by simp [topSendersLe, h])
      · rcases htot x.1 y.1 with h2 | h2
        · exact Or.inl (by simp [topSendersLe, h, h2])
        · exact Or.inr (by simp [topSendersLe, h, h2])
      · exact Or.inl (by simp [topSendersLe, h])
    · intro x y z h1 h2
      simp only [topSendersLe, Bool.or_eq_true, Bool.and_eq_true, decide_eq_true_eq] at h1
      rcases h1 with h1 | ⟨h1, _⟩ <;> omega
  · intro p hp
    have hp2 : p ∈ sortBy (topSendersLe tieBreak) (senderCounts (m :: rest)) :=
      (List.take_sublist _ _).subset hp
    have hp3 : p ∈ senderCounts (m :: rest) :=
      (sortBy_perm _ _).mem_iff.mp hp2
    simp only [senderCounts, List.mem_map] at hp3
    obtain ⟨s, hs, hsp⟩ := hp3
    have hs2 : s ∈ ((m :: rest).map fun x => x.from_msisdn).dedup :=
      (sortBy_perm _ _).mem_iff.mp hs
    constructor
    · rw [← hsp]
    · rw [← hsp]
      exact List.mem_dedup.mp hs2
  · exact ⟨_, rfl, foldl_minStr_mem _ _, fun t ht => foldl_minStr_le _ _ t ht⟩
  · exact ⟨_, rfl, foldl_maxStr_mem _ _, fun t ht => foldl_maxStr_ge _ _ t ht⟩

/-- C7 witness: the amended statement evaluated on the concrete two-sender
store under the sender-ascending tie order. -/
theorem C7_top_senders_amended_witness :
    statsCexDb ≠ []
    ∧ ((get_stats strLe statsCexDb).total_messages = statsCexDb.length
       ∧ (get_stats strLe statsCexDb).senders_count
           = (statsCexDb.map fun m => m.from_msisdn).dedup.length
       ∧ (get_stats strLe statsCexDb).messages_per_sender.length ≤ 10
       ∧ List.Pairwise (fun a b : String × Nat => b.2 ≤ a.2)
           (get_stats strLe statsCexDb).messages_per_sender
       ∧ (∀ p ∈ (get_stats strLe statsCexDb).messages_per_sender,
           p.2 = (statsCexDb.filter fun m => decide (m.from_msisdn = p.1)).length
           ∧ p.1 ∈ statsCexDb.map fun m => m.from_msisdn)
       ∧ (∃ t0, (get_stats strLe statsCexDb).first_message_ts = some t0
           ∧ t0 ∈ statsCexDb.map (fun m => m.ts)
           ∧ ∀ t ∈ statsCexDb.map (fun m => m.ts), strLe t0 t = true)
       ∧ (∃ t1, (get_stats strLe statsCexDb).last_message_ts = some t1
           ∧ t1 ∈ statsCexDb.map (fun m => m.ts)
           ∧ ∀ t ∈ statsCexDb.map (fun m => m.ts), strLe t t1 = true)) :=
  ⟨by decide, C7_top_senders_amended strLe statsCexDb strLe_total (by decide)⟩
